import Mathlib

/-!
Verification of the session/transport coordination layer of the
mcp-nextcloud-calendar repository.

The definitions below are a shallow embedding of the TypeScript sources:
JS `Map` objects and plain objects used as dictionaries are modelled as
association lists with unique keys, timestamps (`Date.now()`) as `Int`,
and JS truthiness of optional string values is modelled explicitly.
-/

namespace CalMcp

/-! ### Definitions (shallow embedding of the source) -/

/-- JavaScript truthiness of an optional string value: an absent value
(`undefined`/`null`) and the empty string are falsy. -/
def jsTruthy : Option String → Bool
  | none => false
  | some s => !(s == "")

/-- Containment of `sub` as a contiguous run inside `l`. -/
def charsContain (sub : List Char) : List Char → Bool
  | [] => sub.isEmpty
  | c :: rest => sub.isPrefixOf (c :: rest) || charsContain sub rest

/-- JavaScript `String.prototype.includes`: raw substring containment. -/
def jsIncludes (s sub : String) : Bool :=
  charsContain sub.toList s.toList

/-- Lookup in an association list (the model of `Map.get` / JS property read):
value at the first matching key. -/
def lookup {α : Type} : List (String × α) → String → Option α
  | [], _ => none
  | (k, v) :: rest, key => if k = key then some v else lookup rest key

/-- `Map.set` / JS property assignment: replaces the value at an existing key
in place, appends a new entry at the end otherwise. -/
def setKey {α : Type} (key : String) (v : α) : List (String × α) → List (String × α)
  | [] => [(key, v)]
  | (k, w) :: rest => if k = key then (key, v) :: rest else (k, w) :: setKey key v rest

/-- `Map.delete` / `delete obj[key]`: removes the entry at the key. -/
def delKey {α : Type} (key : String) : List (String × α) → List (String × α)
  | [] => []
  | (k, v) :: rest => if k = key then rest else (k, v) :: delKey key rest

/-- Removal of an element from a key set (`delete obj[key]` on a set-like object). -/
def delElem (x : String) : List String → List String
  | [] => []
  | y :: rest => if y = x then rest else y :: delElem x rest

/-- JS object spread update: start from `old` and assign each pair of `upd`
in order (later keys override). -/
def jsSpread {α : Type} (old upd : List (String × α)) : List (String × α) :=
  upd.foldl (fun acc p => setKey p.1 p.2 acc) old

/-- The key set of an association list. -/
abbrev keys {α : Type} (m : List (String × α)) : List String :=
  m.map Prod.fst

/-! ## Session Store — `SessionStore` Durable Object
(src/workers/src/durable-objects/session-store.ts).

The store state carries both the in-memory `sessions` map and the
contents persisted under the storage key `sessions`; every handler
mirrors exactly the `storage.put` calls of the source. -/

/-- Session expiry time: 1 hour (`SESSION_TTL` in the source). -/
def SESSION_TTL : Int := 60 * 60 * 1000

structure SessionData (V : Type) where
  id : String
  createdAt : Int
  updatedAt : Int
  userId : Option String
  data : List (String × V)
deriving DecidableEq

structure SessionStoreState (V : Type) where
  sessions : List (String × SessionData V)
  storage : List (String × SessionData V)
deriving DecidableEq

inductive SessionResp (V : Type) where
  | created (sessionId : String) (session : SessionData V)
  | ok (session : SessionData V)
  | deleted (success : Bool)
  | badRequest
  | notFound
deriving DecidableEq

/-- HTTP status of each session-store response shape. -/
def SessionResp.status {V : Type} : SessionResp V → Nat
  | .created _ _ => 200
  | .ok _ => 200
  | .deleted _ => 200
  | .badRequest => 400
  | .notFound => 404

/-- `SessionStore.handleCreateSession`: fresh record with
`createdAt = updatedAt = now`, `data` defaulted to the empty object,
stored and persisted. The generated `nanoid` is passed in as `sid`. -/
def handleCreateSession {V : Type} (sid : String) (now : Int) (userId : Option String)
    (bodyData : Option (List (String × V))) (st : SessionStoreState V) :
    SessionStoreState V × SessionResp V :=
  let session : SessionData V :=
    { id := sid, createdAt := now, updatedAt := now, userId := userId,
      data := bodyData.getD [] }
  let sessions := setKey sid session st.sessions
  (⟨sessions, sessions⟩, .created sid session)

/-- `SessionStore.handleGetSession`: 400 on a falsy id, 404 on a miss; on a
hit touches `updatedAt = now`, writes the map back and persists it. -/
def handleGetSession {V : Type} (sessionId : Option String) (now : Int)
    (st : SessionStoreState V) : SessionStoreState V × SessionResp V :=
  if !(jsTruthy sessionId) then (st, .badRequest)
  else
    let sid := sessionId.getD ""
    match lookup st.sessions sid with
    | none => (st, .notFound)
    | some session =>
      let touched := { session with updatedAt := now }
      let sessions := setKey sid touched st.sessions
      (⟨sessions, sessions⟩, .ok touched)

/-- `SessionStore.handleUpdateSession`: shallow-merges the partial data over
the existing `data` (object spread), touches `updatedAt`, persists. -/
def handleUpdateSession {V : Type} (sessionId : Option String) (data : List (String × V))
    (now : Int) (st : SessionStoreState V) : SessionStoreState V × SessionResp V :=
  if !(jsTruthy sessionId) then (st, .badRequest)
  else
    let sid := sessionId.getD ""
    match lookup st.sessions sid with
    | none => (st, .notFound)
    | some session =>
      let updated := { session with data := jsSpread session.data data, updatedAt := now }
      let sessions := setKey sid updated st.sessions
      (⟨sessions, sessions⟩, .ok updated)

/-- `SessionStore.handleDeleteSession`: deletes the map entry and persists
only when something was actually removed; responds `success = deleted`. -/
def handleDeleteSession {V : Type} (sessionId : Option String)
    (st : SessionStoreState V) : SessionStoreState V × SessionResp V :=
  if !(jsTruthy sessionId) then (st, .badRequest)
  else
    let sid := sessionId.getD ""
    let deleted := (lookup st.sessions sid).isSome
    let sessions := delKey sid st.sessions
    (⟨sessions, if deleted then sessions else st.storage⟩, .deleted deleted)

/-- The keep-predicate of `cleanExpiredSessions`: an entry survives the sweep
iff not `now - updatedAt > SESSION_TTL`. -/
def sessionFresh {V : Type} (now : Int) (p : String × SessionData V) : Bool :=
  !(decide (now - p.2.updatedAt > SESSION_TTL))

/-- `SessionStore.cleanExpiredSessions`: removes every session whose idle
time strictly exceeds the TTL; persists only when something changed. -/
def cleanExpiredSessions {V : Type} (now : Int) (st : SessionStoreState V) :
    SessionStoreState V :=
  let sessions := st.sessions.filter (sessionFresh now)
  let changed := st.sessions.any (fun p => decide (now - p.2.updatedAt > SESSION_TTL))
  ⟨sessions, if changed then sessions else st.storage⟩

/-- Timeline events against the store, watched from one session id:
an `access` is a `GET /get?id=sid` at time `t`, a `sweep` is the cold-load
`cleanExpiredSessions` at time `t`. -/
inductive StoreEv where
  | access (t : Int)
  | sweep (t : Int)

def applyStoreEv {V : Type} (sid : String) (st : SessionStoreState V) :
    StoreEv → SessionStoreState V
  | .access t => (handleGetSession (some sid) t st).1
  | .sweep t => cleanExpiredSessions t st

def runStoreEvs {V : Type} (sid : String) (st : SessionStoreState V)
    (evs : List StoreEv) : SessionStoreState V :=
  evs.foldl (applyStoreEv sid) st

/-- The trace keeps its accesses at most `gap` apart: every event happens at
most `gap` ms after the latest access (`last` tracks that access time). -/
def gapsWithin (gap : Int) : Int → List StoreEv → Bool
  | _, [] => true
  | last, .access t :: rest =>
      decide (last ≤ t) && decide (t - last ≤ gap) && gapsWithin gap t rest
  | last, .sweep t :: rest =>
      decide (last ≤ t) && decide (t - last ≤ gap) && gapsWithin gap last rest

/-! ## Resource Cache — `CalendarCache` Durable Object
(src/workers/src/durable-objects/session-store.ts, calendar-cache part). -/

/-- Cache TTL: 5 minutes for most data (`DEFAULT_TTL`). -/
def DEFAULT_TTL : Int := 5 * 60 * 1000

/-- User preferences TTL: 1 day (`PREFERENCES_TTL`). -/
def PREFERENCES_TTL : Int := 24 * 60 * 60 * 1000

structure CacheEntry (V : Type) where
  data : V
  timestamp : Int
deriving DecidableEq

inductive CacheResp (V : Type) where
  | hit (data : V) (ageMs : Int)
  | miss
  | putOk
  | cleared (clearedEntries : Nat)
deriving DecidableEq

/-- HTTP status of each cache response shape. -/
def CacheResp.status {V : Type} : CacheResp V → Nat
  | .hit _ _ => 200
  | .miss => 404
  | .putOk => 200
  | .cleared _ => 200

/-- The `X-Cache` response header. -/
def CacheResp.xCache {V : Type} : CacheResp V → Option String
  | .hit _ _ => some "HIT"
  | .miss => some "MISS"
  | .putOk => none
  | .cleared _ => none

/-- `CalendarCache.handleGet`: a hit iff the key is present and
`now - timestamp < ttl` (strict); a hit carries `X-Cache: HIT` plus the age,
a miss is a 404 with `X-Cache: MISS`. -/
def handleGet {V : Type} (cache : List (String × CacheEntry V)) (cacheKey : String)
    (ttl now : Int) : CacheResp V :=
  match lookup cache cacheKey with
  | some cached =>
      if now - cached.timestamp < ttl then .hit cached.data (now - cached.timestamp)
      else .miss
  | none => .miss

/-- `CalendarCache.handlePut`: stores the body with `timestamp = now` and
persists the map. -/
def handlePut {V : Type} (cache : List (String × CacheEntry V)) (cacheKey : String)
    (v : V) (now : Int) : List (String × CacheEntry V) × CacheResp V :=
  (setKey cacheKey ⟨v, now⟩ cache, .putOk)

/-- `CalendarCache.handleClearCache`: collects every key that contains the
substring ":" ++ userId (raw `String.includes`), deletes those keys, and
reports their number as `clearedEntries`. -/
def handleClearCache {V : Type} (userId : String)
    (cache : List (String × CacheEntry V)) :
    List (String × CacheEntry V) × CacheResp V :=
  let userKeys := (keys cache).filter (fun key => jsIncludes key (":" ++ userId))
  let cache2 := userKeys.foldl (fun c key => delKey key c) cache
  (cache2, .cleared userKeys.length)

/-- The routed requests of `CalendarCache.fetch` exercised by the claims. -/
inductive CacheReq (V : Type) where
  | getCalendars
  | putCalendars (v : V)
  | getEvents (calendarId : String)
  | putEvents (calendarId : String) (v : V)
  | getPreferences
  | putPreferences (v : V)
  | clearCache

/-- `url.searchParams.get('userId') || 'default'` — an absent or empty
parameter resolves to the literal "default". -/
def resolveUserId (userId : Option String) : String :=
  match userId with
  | none => "default"
  | some u => if u = "" then "default" else u

/-- `CalendarCache.fetch`: key construction and TTL choice per route. Only
the `/preferences` routes pass an explicit TTL; the others use the default. -/
def cacheFetch {V : Type} (cache : List (String × CacheEntry V))
    (userId : Option String) (now : Int) :
    CacheReq V → List (String × CacheEntry V) × CacheResp V
  | .getCalendars =>
      (cache, handleGet cache ("calendars:" ++ resolveUserId userId) DEFAULT_TTL now)
  | .putCalendars v =>
      handlePut cache ("calendars:" ++ resolveUserId userId) v now
  | .getEvents cal =>
      (cache, handleGet cache ("events:" ++ resolveUserId userId ++ ":" ++ cal)
        DEFAULT_TTL now)
  | .putEvents cal v =>
      handlePut cache ("events:" ++ resolveUserId userId ++ ":" ++ cal) v now
  | .getPreferences =>
      (cache, handleGet cache ("preferences:" ++ resolveUserId userId)
        PREFERENCES_TTL now)
  | .putPreferences v =>
      handlePut cache ("preferences:" ++ resolveUserId userId) v now
  | .clearCache => handleClearCache (resolveUserId userId) cache

/-! ## Transport layer — Streamable HTTP / SSE handlers and keep-alive
pingers (`setupMcpTransport`, `startKeepAlivePinger`, `stopKeepAlivePinger`,
`cleanupSession` in the MCP transport source file). -/

inductive McpBranch where
  | forwarded
  | initialized
  | sessionNotFound
deriving DecidableEq

structure McpPostResult where
  status : Option Nat
  sessionHeader : Option String
  transports : List String
  branch : McpBranch
deriving DecidableEq

/-- The POST arm of `mcpHandler`: mirrors the source's two tests
`sessionId && transports[sessionId]` and
`!sessionId || !transports[sessionId]` — the trailing 404 arm included —
with the generated `uuidv4()` passed in as `freshId`. `transports` is the
key set of the module-level registry; this handler never mutates it.
`status` is `none` on the forwarded branch (there the response is produced
by the bound transport's message handler). -/
def mcpPost (transports : List String) (sessionIdHeader : Option String)
    (freshId : String) : McpPostResult :=
  if jsTruthy sessionIdHeader && transports.contains (sessionIdHeader.getD "") then
    { status := none, sessionHeader := none, transports := transports,
      branch := .forwarded }
  else if !(jsTruthy sessionIdHeader)
      || !(transports.contains (sessionIdHeader.getD "")) then
    { status := some 202,
      sessionHeader := some (if jsTruthy sessionIdHeader
        then sessionIdHeader.getD "" else freshId),
      transports := transports, branch := .initialized }
  else
    { status := some 404, sessionHeader := none, transports := transports,
      branch := .sessionNotFound }

/-- Process-local transport-layer state. `transports` is the key set of the
module-level registry object; `handles` is the `keepAliveTimers` object
(session id → interval handle); `live` is the set of actually scheduled
interval timers, identified as (session id, handle token); `nextTok`
generates fresh handle tokens; `pings` logs the heartbeat frames written. -/
structure TState where
  transports : List String
  handles : List (String × Nat)
  live : List (String × Nat)
  nextTok : Nat
  pings : List String
deriving DecidableEq

/-- Effects performed by the teardown path. -/
inductive CleanupEffect where
  | clearedTimer (sid : String)
  | removedTransport (sid : String)
deriving DecidableEq

/-- `startKeepAlivePinger`: first clears the interval already registered for
this id, if any, then schedules a fresh interval and records its handle. -/
def startKeepAlivePinger (sid : String) (s : TState) : TState :=
  let s1 :=
    match lookup s.handles sid with
    | some tok => { s with live := s.live.erase (sid, tok) }
    | none => s
  { s1 with
    live := (sid, s1.nextTok) :: s1.live,
    handles := setKey sid s1.nextTok s1.handles,
    nextTok := s1.nextTok + 1 }

/-- `stopKeepAlivePinger` with its effect trace: if a handle is registered
for the id, clears that interval and deletes the handle; otherwise no-op. -/
def stopKeepAlivePingerE (sid : String) (s : TState) : TState × List CleanupEffect :=
  match lookup s.handles sid with
  | some tok =>
      ({ s with live := s.live.erase (sid, tok), handles := delKey sid s.handles },
       [.clearedTimer sid])
  | none => (s, [])

def stopKeepAlivePinger (sid : String) (s : TState) : TState :=
  (stopKeepAlivePingerE sid s).1

/-- `cleanupSession` with its effect trace: stop the pinger, then delete the
transport registry entry if present. -/
def cleanupSessionE (sid : String) (s : TState) : TState × List CleanupEffect :=
  let s1 := stopKeepAlivePingerE sid s
  let removed :=
    if sid ∈ s1.1.transports then [CleanupEffect.removedTransport sid] else []
  ({ s1.1 with transports := delElem sid s1.1.transports }, s1.2 ++ removed)

def cleanupSession (sid : String) (s : TState) : TState :=
  (cleanupSessionE sid s).1

/-- `transports[sessionId] = transport`: (re)binds the key. -/
def insertBinding (sid : String) (l : List String) : List String :=
  if sid ∈ l then l else l ++ [sid]

/-- The transport-layer events the claims quantify over: stream
establishment (GET: store the transport, register the close hook, start the
pinger), message POSTs (which never mutate registry or timers), DELETE
termination, connection close, a keep-alive tick whose write succeeds, and
a keep-alive tick whose write to the response stream throws (the catch arm
of the pinger). A tick event for an already-cancelled interval is a no-op,
matching `clearInterval` semantics. -/
inductive TEvent where
  | estStream (sid : String)
  | postMsg
  | deleteReq (sid : String)
  | closeConn (sid : String)
  | tick (sid : String) (tok : Nat)
  | tickWriteFail (sid : String) (tok : Nat)
deriving DecidableEq

def TEvent.isWriteFail : TEvent → Bool
  | .tickWriteFail _ _ => true
  | _ => false

def stepT (s : TState) : TEvent → TState
  | .estStream sid =>
      startKeepAlivePinger sid { s with transports := insertBinding sid s.transports }
  | .postMsg => s
  | .deleteReq sid => if sid ∈ s.transports then cleanupSession sid s else s
  | .closeConn sid => cleanupSession sid s
  | .tick sid tok =>
      if (sid, tok) ∈ s.live then
        if sid ∈ s.transports then { s with pings := s.pings ++ [sid] }
        else stopKeepAlivePinger sid s
      else s
  | .tickWriteFail sid tok =>
      if (sid, tok) ∈ s.live ∧ sid ∈ s.transports then stopKeepAlivePinger sid s
      else s

def initT : TState := ⟨[], [], [], 0, []⟩

def runT (evs : List TEvent) : TState := evs.foldl stepT initT

def noWriteFail (evs : List TEvent) : Bool :=
  evs.all fun e => !(e.isWriteFail)

/-- Well-formedness invariant of reachable transport states. -/
def InvT (s : TState) : Prop :=
  s.transports.Nodup ∧
  (keys s.handles).Nodup ∧
  s.live.Nodup ∧
  (∀ p : String × Nat, p ∈ s.live ↔ p ∈ s.handles) ∧
  (∀ p ∈ s.handles, p.2 < s.nextTok) ∧
  (∀ p ∈ s.handles, p.1 ∈ s.transports)

/-- Binding-implies-timer direction, which holds only on traces without
failed heartbeat writes. -/
def ParityT (s : TState) : Prop :=
  ∀ sid ∈ s.transports, ∃ tok, (sid, tok) ∈ s.handles

/-- Every actual JS registry/timer state is well formed — JS objects cannot
hold duplicate keys. -/
def WFT (s : TState) : Prop :=
  s.transports.Nodup ∧ (keys s.handles).Nodup

/-! ### Theorems -/

theorem lookup_setKey_self {α : Type} (key : String) (v : α) (m : List (String × α)) :
    lookup (setKey key v m) key = some v := by
  induction m with
  | nil => simp [setKey, lookup]
  | cons hd tl ih =>
    obtain ⟨k, w⟩ := hd
    by_cases h : k = key
    · simp [setKey, h, lookup]
    · simp [setKey, h, lookup, ih]

theorem lookup_setKey_ne {α : Type} (key k' : String) (v : α) (m : List (String × α))
    (h : k' ≠ key) : lookup (setKey key v m) k' = lookup m k' := by
  induction m with
  | nil => simp [setKey, lookup, Ne.symm h]
  | cons hd tl ih =>
    obtain ⟨k, w⟩ := hd
    by_cases hk : k = key
    · subst hk
      simp [setKey, lookup, Ne.symm h]
    · simp [setKey, hk, lookup, ih]

theorem lookup_eq_none_iff {α : Type} (m : List (String × α)) (key : String) :
    lookup m key = none ↔ key ∉ keys m := by
  induction m with
  | nil => simp [lookup, keys]
  | cons hd tl ih =>
    obtain ⟨k, v⟩ := hd
    by_cases h : k = key
    · subst h
      simp [lookup, keys]
    · simp [lookup, h, keys, Ne.symm h, ih]

theorem mem_of_lookup {α : Type} {m : List (String × α)} {key : String} {v : α}
    (h : lookup m key = some v) : (key, v) ∈ m := by
  induction m with
  | nil => simp [lookup] at h
  | cons hd tl ih =>
    obtain ⟨k, w⟩ := hd
    by_cases hk : k = key
    · subst hk
      simp [lookup] at h
      simp [h]
    · simp [lookup, hk] at h
      exact List.mem_cons_of_mem _ (ih h)

theorem lookup_of_mem_nodup {α : Type} {m : List (String × α)} {p : String × α}
    (hnd : (keys m).Nodup) (hp : p ∈ m) : lookup m p.1 = some p.2 := by
  induction m with
  | nil => simp at hp
  | cons hd tl ih =>
    obtain ⟨k, w⟩ := hd
    simp only [keys, List.map_cons, List.nodup_cons] at hnd
    rcases List.mem_cons.mp hp with h | h
    · subst h
      simp [lookup]
    · have hk : k ≠ p.1 := by
        intro hkeq
        apply hnd.1
        rw [hkeq]
        exact List.mem_map.mpr ⟨p, h, rfl⟩
      rw [lookup, if_neg hk]
      exact ih hnd.2 h

theorem delKey_sublist {α : Type} (key : String) (m : List (String × α)) :
    List.Sublist (delKey key m) m := by
  induction m with
  | nil => exact List.nil_sublist _
  | cons hd tl ih =>
    obtain ⟨k, v⟩ := hd
    by_cases h : k = key
    · rw [delKey, if_pos h]
      exact List.sublist_cons_self _ _
    · rw [delKey, if_neg h]
      exact List.Sublist.cons₂ _ ih

theorem delElem_sublist (x : String) (l : List String) :
    List.Sublist (delElem x l) l := by
  induction l with
  | nil => exact List.nil_sublist _
  | cons y tl ih =>
    by_cases h : y = x
    · rw [delElem, if_pos h]
      exact List.sublist_cons_self _ _
    · rw [delElem, if_neg h]
      exact List.Sublist.cons₂ _ ih

theorem delKey_of_lookup_none {α : Type} {key : String} {m : List (String × α)}
    (h : lookup m key = none) : delKey key m = m := by
  induction m with
  | nil => simp [delKey]
  | cons hd tl ih =>
    obtain ⟨k, v⟩ := hd
    by_cases hk : k = key
    · simp [lookup, hk] at h
    · simp [lookup, hk] at h
      simp [delKey, hk, ih h]

theorem lookup_delKey_ne {α : Type} (key k' : String) (m : List (String × α))
    (h : k' ≠ key) : lookup (delKey key m) k' = lookup m k' := by
  induction m with
  | nil => simp [delKey]
  | cons hd tl ih =>
    obtain ⟨k, v⟩ := hd
    by_cases hk : k = key
    · subst hk
      simp [delKey, lookup, Ne.symm h]
    · simp [delKey, hk, lookup, ih]

theorem lookup_delKey_self {α : Type} {key : String} {m : List (String × α)}
    (hnd : (keys m).Nodup) : lookup (delKey key m) key = none := by
  induction m with
  | nil => simp [delKey, lookup]
  | cons hd tl ih =>
    obtain ⟨k, v⟩ := hd
    simp only [keys, List.map_cons, List.nodup_cons] at hnd
    by_cases hk : k = key
    · subst hk
      rw [delKey, if_pos rfl, lookup_eq_none_iff]
      intro hmem
      exact hnd.1 hmem
    · rw [delKey, if_neg hk, lookup, if_neg hk]
      exact ih hnd.2

theorem nodup_keys_delKey {α : Type} {key : String} {m : List (String × α)}
    (h : (keys m).Nodup) : (keys (delKey key m)).Nodup :=
  h.sublist (List.Sublist.map _ (delKey_sublist key m))

theorem nodup_delElem {x : String} {l : List String}
    (h : l.Nodup) : (delElem x l).Nodup :=
  h.sublist (delElem_sublist x l)

theorem mem_delKey_of_nodup {α : Type} {key : String} {m : List (String × α)}
    (hnd : (keys m).Nodup) (p : String × α) :
    p ∈ delKey key m ↔ p ∈ m ∧ p.1 ≠ key := by
  induction m with
  | nil => simp [delKey]
  | cons hd tl ih =>
    obtain ⟨k, v⟩ := hd
    simp only [keys, List.map_cons, List.nodup_cons] at hnd
    by_cases hk : k = key
    · subst hk
      rw [delKey, if_pos rfl]
      constructor
      · intro hp
        refine ⟨List.mem_cons_of_mem _ hp, fun hpk => ?_⟩
        exact hnd.1 (hpk ▸ List.mem_map.mpr ⟨p, hp, rfl⟩)
      · rintro ⟨hp, hpk⟩
        rcases List.mem_cons.mp hp with h | h
        · exact absurd (by rw [h]) hpk
        · exact h
    · rw [delKey, if_neg hk, List.mem_cons, List.mem_cons, ih hnd.2]
      constructor
      · rintro (h | ⟨h1, h2⟩)
        · exact ⟨Or.inl h, by rw [h]; exact hk⟩
        · exact ⟨Or.inr h1, h2⟩
      · rintro ⟨h | h, h2⟩
        · exact Or.inl h
        · exact Or.inr ⟨h, h2⟩

theorem mem_delElem_of_nodup {x : String} {l : List String}
    (hnd : l.Nodup) (y : String) : y ∈ delElem x l ↔ y ∈ l ∧ y ≠ x := by
  induction l with
  | nil => simp [delElem]
  | cons z tl ih =>
    rw [List.nodup_cons] at hnd
    by_cases hz : z = x
    · subst hz
      rw [delElem, if_pos rfl]
      constructor
      · intro hy
        exact ⟨List.mem_cons_of_mem _ hy, fun hyx => hnd.1 (hyx ▸ hy)⟩
      · rintro ⟨hy, hyx⟩
        rcases List.mem_cons.mp hy with h | h
        · exact absurd h hyx
        · exact h
    · rw [delElem, if_neg hz, List.mem_cons, List.mem_cons, ih hnd.2]
      constructor
      · rintro (h | ⟨h1, h2⟩)
        · exact ⟨Or.inl h, h ▸ fun hc => hz hc⟩
        · exact ⟨Or.inr h1, h2⟩
      · rintro ⟨h | h, h2⟩
        · exact Or.inl h
        · exact Or.inr ⟨h, h2⟩

theorem keys_setKey {α : Type} (key : String) (v : α) (m : List (String × α)) :
    keys (setKey key v m) = if key ∈ keys m then keys m else keys m ++ [key] := by
  induction m with
  | nil => simp [setKey, keys]
  | cons hd tl ih =>
    obtain ⟨k, v'⟩ := hd
    by_cases hk : k = key
    · subst hk
      simp [setKey, keys]
    · by_cases hmem : key ∈ keys tl
      · simp [setKey, hk, keys, hmem, Ne.symm hk] at ih ⊢
        exact ih
      · simp [setKey, hk, keys, hmem, Ne.symm hk] at ih ⊢
        exact ih

theorem nodup_keys_setKey {α : Type} {key : String} {v : α} {m : List (String × α)}
    (h : (keys m).Nodup) : (keys (setKey key v m)).Nodup := by
  rw [keys_setKey]
  by_cases hmem : key ∈ keys m
  · simpa [hmem] using h
  · rw [if_neg hmem]
    rw [List.nodup_append]
    exact ⟨h, List.nodup_singleton _, by
      intro a ha hb
      rw [List.mem_singleton] at hb
      exact hmem (hb ▸ ha)⟩

theorem mem_setKey_of_nodup {α : Type} {key : String} {v : α} {m : List (String × α)}
    (hnd : (keys m).Nodup) (p : String × α) :
    p ∈ setKey key v m ↔ p = (key, v) ∨ (p ∈ m ∧ p.1 ≠ key) := by
  induction m with
  | nil => simp [setKey]
  | cons hd tl ih =>
    obtain ⟨k, w⟩ := hd
    simp only [keys, List.map_cons, List.nodup_cons] at hnd
    by_cases hk : k = key
    · subst hk
      rw [setKey, if_pos rfl, List.mem_cons, List.mem_cons]
      constructor
      · rintro (h | h)
        · exact Or.inl h
        · refine Or.inr ⟨Or.inr h, fun hpk => ?_⟩
          exact hnd.1 (hpk ▸ List.mem_map.mpr ⟨p, h, rfl⟩)
      · rintro (h | ⟨h1 | h1, h2⟩)
        · exact Or.inl h
        · exact absurd (by rw [h1]) h2
        · exact Or.inr h1
    · rw [setKey, if_neg hk, List.mem_cons, List.mem_cons, ih hnd.2]
      constructor
      · rintro (h | h | ⟨h1, h2⟩)
        · exact Or.inr ⟨Or.inl h, by rw [h]; exact hk⟩
        · exact Or.inl h
        · exact Or.inr ⟨Or.inr h1, h2⟩
      · rintro (h | ⟨h1 | h1, h2⟩)
        · exact Or.inr (Or.inl h)
        · exact Or.inl h1
        · exact Or.inr (Or.inr ⟨h1, h2⟩)

theorem lookup_filter_of_pred {α : Type} {m : List (String × α)} {key : String} {v : α}
    (pred : String × α → Bool) (h : lookup m key = some v) (hp : pred (key, v) = true) :
    lookup (m.filter pred) key = some v := by
  induction m with
  | nil => simp [lookup] at h
  | cons hd tl ih =>
    obtain ⟨k, w⟩ := hd
    by_cases hk : k = key
    · subst hk
      simp [lookup] at h
      subst h
      simp [List.filter, hp, lookup]
    · simp only [lookup, if_neg hk] at h
      by_cases hpred : pred (k, w) = true
      · rw [List.filter_cons_of_pos hpred, lookup, if_neg hk]
        exact ih h
      · rw [List.filter_cons_of_neg (by simpa using hpred)]
        exact ih h

theorem lookup_filter_of_not_pred {α : Type} {m : List (String × α)} {key : String} {v : α}
    (pred : String × α → Bool) (hnd : (keys m).Nodup)
    (h : lookup m key = some v) (hp : pred (key, v) = false) :
    lookup (m.filter pred) key = none := by
  rw [lookup_eq_none_iff]
  intro hmem
  obtain ⟨⟨k1, v1⟩, hq, hfst⟩ := List.mem_map.mp hmem
  dsimp at hfst
  subst hfst
  have hqm : (k1, v1) ∈ m := (List.mem_filter.mp hq).1
  have hqp : pred (k1, v1) = true := (List.mem_filter.mp hq).2
  have hlq : lookup m k1 = some v1 := lookup_of_mem_nodup hnd hqm
  rw [h] at hlq
  have hv : v = v1 := by injection hlq
  rw [← hv] at hqp
  rw [hp] at hqp
  exact absurd hqp (by simp)

theorem handleGetSession_hit {V : Type} (sid : String) (hsid : sid ≠ "") (now : Int)
    (st : SessionStoreState V) (s : SessionData V)
    (hs : lookup st.sessions sid = some s) :
    handleGetSession (some sid) now st =
      (⟨setKey sid { s with updatedAt := now } st.sessions,
        setKey sid { s with updatedAt := now } st.sessions⟩,
       .ok { s with updatedAt := now }) := by
  rw [handleGetSession]
  have ht : jsTruthy (some sid) = true := by simp [jsTruthy, hsid]
  rw [ht]
  simp only [Bool.not_true, Bool.false_eq_true, if_false, Option.getD_some, hs]

theorem sweep_keeps_fresh {V : Type} (sid : String) (now : Int)
    (st : SessionStoreState V) (s : SessionData V)
    (hs : lookup st.sessions sid = some s)
    (hfresh : now - s.updatedAt ≤ SESSION_TTL) :
    lookup (cleanExpiredSessions now st).sessions sid = some s := by
  apply lookup_filter_of_pred _ hs
  simp only [sessionFresh]
  simpa using hfresh

theorem sweep_purges_stale {V : Type} (sid : String) (now : Int)
    (st : SessionStoreState V) (s : SessionData V)
    (hnd : (keys st.sessions).Nodup)
    (hs : lookup st.sessions sid = some s)
    (hstale : now - s.updatedAt > SESSION_TTL) :
    lookup (cleanExpiredSessions now st).sessions sid = none := by
  apply lookup_filter_of_not_pred _ hnd hs
  simp only [sessionFresh]
  simpa using hstale

theorem survives_of_gaps {V : Type} (sid : String) (hsid : sid ≠ "")
    (evs : List StoreEv) :
    ∀ (st : SessionStoreState V) (s : SessionData V),
      lookup st.sessions sid = some s →
      gapsWithin 1800000 s.updatedAt evs = true →
      ∃ s2, lookup (runStoreEvs sid st evs).sessions sid = some s2 := by
  induction evs with
  | nil => exact fun st s hs _ => ⟨s, hs⟩
  | cons e rest ih =>
    intro st s hs hg
    cases e with
    | access t =>
      rw [gapsWithin, Bool.and_eq_true, Bool.and_eq_true] at hg
      have hstep : lookup ((handleGetSession (some sid) t st).1).sessions sid
          = some { s with updatedAt := t } := by
        rw [handleGetSession_hit sid hsid t st s hs]
        exact lookup_setKey_self sid _ st.sessions
      exact ih _ _ hstep (by simpa using hg.2)
    | sweep t =>
      rw [gapsWithin, Bool.and_eq_true, Bool.and_eq_true] at hg
      have hgap : t - s.updatedAt ≤ 1800000 := by
        have := hg.1.2
        simpa using this
      have hstep : lookup (cleanExpiredSessions t st).sessions sid = some s :=
        sweep_keeps_fresh sid t st s hs (by rw [SESSION_TTL]; omega)
      exact ih _ _ hstep (by simpa using hg.2)

theorem lookup_jsSpread_of_none {α : Type} (old upd : List (String × α)) (k : String)
    (h : lookup upd k = none) :
    lookup (jsSpread old upd) k = lookup old k := by
  induction upd generalizing old with
  | nil => simp [jsSpread]
  | cons p rest ih =>
    obtain ⟨k1, v1⟩ := p
    by_cases hk : k1 = k
    · simp [lookup, hk] at h
    · simp only [lookup, if_neg hk] at h
      simp only [jsSpread, List.foldl_cons]
      have hres := ih (setKey k1 v1 old) h
      simp only [jsSpread] at hres
      rw [hres]
      exact lookup_setKey_ne k1 k v1 old (Ne.symm hk)

theorem lookup_jsSpread_of_some {α : Type} (old upd : List (String × α)) (k : String) (v : α)
    (hnd : (keys upd).Nodup) (h : lookup upd k = some v) :
    lookup (jsSpread old upd) k = some v := by
  induction upd generalizing old with
  | nil => simp [lookup] at h
  | cons p rest ih =>
    obtain ⟨k1, v1⟩ := p
    simp only [keys, List.map_cons, List.nodup_cons] at hnd
    by_cases hk : k1 = k
    · subst hk
      simp only [lookup, if_pos rfl] at h
      injection h with h
      subst h
      simp only [jsSpread, List.foldl_cons]
      have hrest : lookup rest k1 = none := by
        rw [lookup_eq_none_iff]
        exact hnd.1
      have hres := lookup_jsSpread_of_none (setKey k1 v1 old) rest k1 hrest
      simp only [jsSpread] at hres
      rw [hres]
      exact lookup_setKey_self k1 v1 old
    · simp only [lookup, if_neg hk] at h
      simp only [jsSpread, List.foldl_cons]
      have hres := ih (setKey k1 v1 old) hnd.2 h
      simp only [jsSpread] at hres
      exact hres

/-- **C3** (confirmed). `handleGetSession` on a hit sets the record's
`updatedAt` to the current time, writes the map back and persists it
(`storage` ends up equal to the in-memory map); along any timeline whose
events each occur at most 30 minutes after the latest access, a live session
is never removed by a sweep under the 1-hour TTL; and a session left
untouched for strictly more than 1 hour is removed by the next sweep. -/
theorem c3_sliding_expiration :
    (∀ (V : Type) (sid : String) (now : Int) (st : SessionStoreState V) (s : SessionData V),
      sid ≠ "" → lookup st.sessions sid = some s →
      (handleGetSession (some sid) now st).1.sessions
          = setKey sid { s with updatedAt := now } st.sessions ∧
      (handleGetSession (some sid) now st).1.storage
          = (handleGetSession (some sid) now st).1.sessions ∧
      (handleGetSession (some sid) now st).2 = .ok { s with updatedAt := now }) ∧
    (∀ (V : Type) (sid : String) (st : SessionStoreState V) (s : SessionData V)
        (evs : List StoreEv),
      sid ≠ "" → lookup st.sessions sid = some s →
      gapsWithin 1800000 s.updatedAt evs = true →
      ∃ s2, lookup (runStoreEvs sid st evs).sessions sid = some s2) ∧
    (∀ (V : Type) (sid : String) (now : Int) (st : SessionStoreState V) (s : SessionData V),
      (keys st.sessions).Nodup → lookup st.sessions sid = some s →
      now - s.updatedAt > SESSION_TTL →
      lookup (cleanExpiredSessions now st).sessions sid = none) := by
  refine ⟨?_, ?_, ?_⟩
  · intro V sid now st s hsid hs
    rw [handleGetSession_hit sid hsid now st s hs]
    exact ⟨rfl, rfl, rfl⟩
  · intro V sid st s evs hsid hs hg
    exact survives_of_gaps sid hsid evs st s hs hg
  · intro V sid now st s hnd hs hstale
    exact sweep_purges_stale sid now st s hnd hs hstale

/-- Witness for C3 at concrete inputs: a session accessed at t=1000000 and
swept at t=2000000 (gaps within 30 min) survives; a session idle for more
than one hour is purged by the sweep. -/
theorem c3_sliding_expiration_witness :
    (∃ s2, lookup (runStoreEvs "a"
        (⟨[("a", ⟨"a", 0, 0, none, ([] : List (String × Nat))⟩)],
          [("a", ⟨"a", 0, 0, none, []⟩)]⟩ : SessionStoreState Nat)
        [StoreEv.access 1000000, StoreEv.sweep 2000000]).sessions "a" = some s2) ∧
    lookup (cleanExpiredSessions 4000001
        (⟨[("a", ⟨"a", 0, 0, none, ([] : List (String × Nat))⟩)],
          []⟩ : SessionStoreState Nat)).sessions "a" = none :=
  ⟨c3_sliding_expiration.2.1 Nat "a" _ ⟨"a", 0, 0, none, []⟩
      [StoreEv.access 1000000, StoreEv.sweep 2000000]
      (by decide) (by decide) (by decide),
   c3_sliding_expiration.2.2 Nat "a" 4000001 _ ⟨"a", 0, 0, none, []⟩
      (by decide) (by decide) (by decide)⟩

/-- **C5** (confirmed). Round trip on a fresh store: `create` returns the
record with empty `data`; `update` shallow-merges (keys of the partial data
override, all other keys are retained — stated generally below); a
subsequent `get` returns exactly the merged data; `delete` answers
`success = true` and every later `get` is NotFound with status 404. -/
theorem c5_round_trip :
    ((handleCreateSession "S1" 10 (some "alice") none
        (⟨[], []⟩ : SessionStoreState String)).2
      = .created "S1" ⟨"S1", 10, 10, some "alice", []⟩ ∧
     (handleUpdateSession (some "S1") [("foo", "bar")] 20
        (handleCreateSession "S1" 10 (some "alice") none
          (⟨[], []⟩ : SessionStoreState String)).1).2
      = .ok ⟨"S1", 10, 20, some "alice", [("foo", "bar")]⟩ ∧
     (handleGetSession (some "S1") 30
        (handleUpdateSession (some "S1") [("foo", "bar")] 20
          (handleCreateSession "S1" 10 (some "alice") none
            (⟨[], []⟩ : SessionStoreState String)).1).1).2
      = .ok ⟨"S1", 10, 30, some "alice", [("foo", "bar")]⟩ ∧
     (handleDeleteSession (some "S1")
        (handleGetSession (some "S1") 30
          (handleUpdateSession (some "S1") [("foo", "bar")] 20
            (handleCreateSession "S1" 10 (some "alice") none
              (⟨[], []⟩ : SessionStoreState String)).1).1).1).2
      = .deleted true ∧
     (handleGetSession (some "S1") 40
        (handleDeleteSession (some "S1")
          (handleGetSession (some "S1") 30
            (handleUpdateSession (some "S1") [("foo", "bar")] 20
              (handleCreateSession "S1" 10 (some "alice") none
                (⟨[], []⟩ : SessionStoreState String)).1).1).1).1).2
      = .notFound ∧
     SessionResp.status (SessionResp.notFound : SessionResp String) = 404) ∧
    (∀ (V : Type) (old upd : List (String × V)) (k : String),
      (keys upd).Nodup →
      (∀ v, lookup upd k = some v → lookup (jsSpread old upd) k = some v) ∧
      (lookup upd k = none → lookup (jsSpread old upd) k = lookup old k)) := by
  constructor
  · decide
  · intro V old upd k hnd
    exact ⟨fun v hv => lookup_jsSpread_of_some old upd k v hnd hv,
           fun hn => lookup_jsSpread_of_none old upd k hn⟩

/-- Witness for C5's general merge clause at concrete inputs. -/
theorem c5_round_trip_witness :
    lookup (jsSpread [("a", 1), ("b", 2)] [("b", 3)]) "b" = some 3 ∧
    lookup (jsSpread [("a", 1), ("b", 2)] [("b", 3)]) "a" = some (1 : Nat) :=
  ⟨(c5_round_trip.2 Nat [("a", 1), ("b", 2)] [("b", 3)] "b" (by decide)).1 3 (by decide),
   (c5_round_trip.2 Nat [("a", 1), ("b", 2)] [("b", 3)] "a" (by decide)).2 (by decide)⟩

/-- **C9** counterexample. The claim quantifies over every id not present in
the store; the id `""` (a `DELETE /delete?id=` request) is present in no
store, yet the handler's falsy-id guard answers 400 with an error body, not
200 with `success = false`. -/
theorem c9_delete_missing_counterexample :
    (handleDeleteSession (some "") (⟨[], []⟩ : SessionStoreState Nat)).2
        = SessionResp.badRequest ∧
    SessionResp.status
        ((handleDeleteSession (some "") (⟨[], []⟩ : SessionStoreState Nat)).2) = 400 ∧
    (handleDeleteSession (some "") (⟨[], []⟩ : SessionStoreState Nat)).2
        ≠ SessionResp.deleted false := by
  decide

/-- **C9** (amended). For every nonempty id not present in the store, delete
responds 200 with `success = false` and leaves both the in-memory map and the
persisted storage unchanged (the persistence write happens only when a record
was actually removed); a falsy id (absent or empty) is rejected with 400 and
also leaves the state unchanged. -/
theorem c9_delete_missing_amended :
    (∀ (V : Type) (st : SessionStoreState V) (sid : String),
      sid ≠ "" → lookup st.sessions sid = none →
      handleDeleteSession (some sid) st = (st, .deleted false) ∧
      SessionResp.status (SessionResp.deleted false : SessionResp V) = 200) ∧
    (∀ (V : Type) (st : SessionStoreState V) (sessionId : Option String),
      jsTruthy sessionId = false →
      handleDeleteSession sessionId st = (st, .badRequest)) := by
  constructor
  · intro V st sid hsid hnone
    refine ⟨?_, rfl⟩
    have ht : jsTruthy (some sid) = true := by simp [jsTruthy, hsid]
    rw [handleDeleteSession, ht]
    simp only [Bool.not_true, Bool.false_eq_true, if_false, Option.getD_some]
    rw [hnone, delKey_of_lookup_none hnone]
    rfl
  · intro V st sessionId hf
    rw [handleDeleteSession, hf]
    rfl

/-- Witness for C9's amended statement at concrete inputs. -/
theorem c9_delete_missing_amended_witness :
    handleDeleteSession (some "x") (⟨[], []⟩ : SessionStoreState Nat)
        = (⟨[], []⟩, .deleted false) ∧
    handleDeleteSession none (⟨[], []⟩ : SessionStoreState Nat)
        = (⟨[], []⟩, .badRequest) :=
  ⟨(c9_delete_missing_amended.1 Nat ⟨[], []⟩ "x" (by decide) (by decide)).1,
   c9_delete_missing_amended.2 Nat ⟨[], []⟩ none (by decide)⟩

theorem handleGet_after_put_hit {V : Type} (cache : List (String × CacheEntry V))
    (key : String) (v : V) (t ttl now : Int) (h : now - t < ttl) :
    handleGet (setKey key ⟨v, t⟩ cache) key ttl now = .hit v (now - t) := by
  rw [handleGet, lookup_setKey_self]
  simp [h]

theorem handleGet_after_put_miss {V : Type} (cache : List (String × CacheEntry V))
    (key : String) (v : V) (t ttl now : Int) (h : ¬(now - t < ttl)) :
    handleGet (setKey key ⟨v, t⟩ cache) key ttl now = .miss := by
  rw [handleGet, lookup_setKey_self]
  simp [h]

theorem delKey_eq_filter {α : Type} {key : String} {m : List (String × α)}
    (hnd : (keys m).Nodup) :
    delKey key m = m.filter (fun p => !(decide (p.1 = key))) := by
  induction m with
  | nil => simp [delKey]
  | cons hd tl ih =>
    obtain ⟨k, v⟩ := hd
    simp only [keys, List.map_cons, List.nodup_cons] at hnd
    by_cases hk : k = key
    · subst hk
      rw [delKey, if_pos rfl, List.filter_cons_of_neg (by simp)]
      symm
      apply List.filter_eq_self.mpr
      intro p hp
      simp only [Bool.not_eq_true', decide_eq_false_iff_not]
      intro hpk
      exact hnd.1 (hpk ▸ List.mem_map.mpr ⟨p, hp, rfl⟩)
    · rw [delKey, if_neg hk, List.filter_cons_of_pos (by simp [hk]), ih hnd.2]

theorem foldl_delKey_eq_filter {α : Type} (ks : List String) (m : List (String × α))
    (hnd : (keys m).Nodup) :
    ks.foldl (fun c key => delKey key c) m
      = m.filter (fun p => !(decide (p.1 ∈ ks))) := by
  induction ks generalizing m with
  | nil => simp
  | cons k rest ih =>
    rw [List.foldl_cons, ih (delKey k m) (nodup_keys_delKey hnd),
        delKey_eq_filter hnd, List.filter_filter]
    apply List.filter_congr
    intro p hp
    by_cases hk : p.1 = k <;> by_cases hr : p.1 ∈ rest <;> simp [hk, hr]

/-- Characterization of the clear operation on a well-formed (unique-keyed)
cache: exactly the keys containing ":" ++ userId as a substring are removed,
and their number is reported. -/
theorem handleClearCache_spec {V : Type} (userId : String)
    (cache : List (String × CacheEntry V)) (hnd : (keys cache).Nodup) :
    (handleClearCache userId cache).1
        = cache.filter (fun p => !(jsIncludes p.1 (":" ++ userId))) ∧
    (handleClearCache userId cache).2
        = .cleared (((keys cache).filter
            (fun key => jsIncludes key (":" ++ userId))).length) := by
  refine ⟨?_, rfl⟩
  show ((keys cache).filter _).foldl (fun c key => delKey key c) cache = _
  rw [foldl_delKey_eq_filter _ _ hnd]
  apply List.filter_congr
  intro p hp
  have hpk : p.1 ∈ keys cache := List.mem_map.mpr ⟨p, hp, rfl⟩
  by_cases hj : jsIncludes p.1 (":" ++ userId) = true
  · simp [List.mem_filter, hpk, hj]
  · simp only [Bool.not_eq_true] at hj
    simp [List.mem_filter, hj]

/-- **C1** (code bug). At the spec's regression input, the clear-for-owner
operation `DELETE /clear?userId=bob` removes BOTH entries: ownership is
tested with `key.includes(':' + userId)`, a raw substring test, and ":bob"
occurs inside "calendars:bobby". `clearedEntries` reports 2 and the bobby
entry is gone, where the claim requires the bobby entry to survive and the
count of removed entries to be 1. -/
theorem c1_clear_owner_substring_bug :
    (cacheFetch [("calendars:bob", (⟨1, 0⟩ : CacheEntry Nat)),
        ("calendars:bobby", ⟨2, 0⟩)] (some "bob") 0 .clearCache).1 = [] ∧
    (cacheFetch [("calendars:bob", (⟨1, 0⟩ : CacheEntry Nat)),
        ("calendars:bobby", ⟨2, 0⟩)] (some "bob") 0 .clearCache).2
      = .cleared 2 ∧
    lookup (cacheFetch [("calendars:bob", (⟨1, 0⟩ : CacheEntry Nat)),
        ("calendars:bobby", ⟨2, 0⟩)] (some "bob") 0 .clearCache).1
      "calendars:bobby" = none := by
  decide

/-- **C4** (confirmed). A value put under the "preferences" category and
fetched 10 minutes (600000 ms of clock advance) later is a HIT with
`X-Cache: HIT` returning the stored data and its age; under the default-TTL
categories (calendars, events) the same 10-minutes-later get is a 404 MISS
with `X-Cache: MISS` — the hit condition is `now - timestamp < ttl` with
PREFERENCES_TTL = 24 h and DEFAULT_TTL = 5 min. -/
theorem c4_ttl_differentiation (V : Type) (v : V) (cache : List (String × CacheEntry V))
    (userId : Option String) (t : Int) (cal : String) :
    (cacheFetch (cacheFetch cache userId t (.putPreferences v)).1 userId (t + 600000)
        CacheReq.getPreferences).2 = CacheResp.hit v 600000 ∧
    CacheResp.xCache (CacheResp.hit v (600000 : Int)) = some "HIT" ∧
    CacheResp.status (CacheResp.hit v (600000 : Int)) = 200 ∧
    (cacheFetch (cacheFetch cache userId t (.putCalendars v)).1 userId (t + 600000)
        CacheReq.getCalendars).2 = CacheResp.miss ∧
    (cacheFetch (cacheFetch cache userId t (.putEvents cal v)).1 userId (t + 600000)
        (CacheReq.getEvents cal)).2 = CacheResp.miss ∧
    CacheResp.status (CacheResp.miss : CacheResp V) = 404 ∧
    CacheResp.xCache (CacheResp.miss : CacheResp V) = some "MISS" := by
  have e : t + 600000 - t = (600000 : Int) := by omega
  refine ⟨?_, rfl, rfl, ?_, ?_, rfl, rfl⟩
  · simp only [cacheFetch, handlePut]
    rw [handleGet_after_put_hit _ _ _ _ _ _ (by rw [PREFERENCES_TTL]; omega), e]
  · simp only [cacheFetch, handlePut]
    rw [handleGet_after_put_miss _ _ _ _ _ _ (by rw [DEFAULT_TTL]; omega)]
  · simp only [cacheFetch, handlePut]
    rw [handleGet_after_put_miss _ _ _ _ _ _ (by rw [DEFAULT_TTL]; omega)]

/-- **C10** counterexample. Without a userId the owner resolves to "default",
but the clear operation uses a raw substring test: the entry
"events:bob:default" — owned by "bob", with calendar id "default" — is also
removed by `DELETE /clear` without userId (clearedEntries = 1), where the
claim requires that exactly the entries of owner "default" be removed and
this entry be retained. -/
theorem c10_default_owner_counterexample :
    (cacheFetch [("events:bob:default", (⟨1, 0⟩ : CacheEntry Nat))]
        none 0 .clearCache).1 = [] ∧
    (cacheFetch [("events:bob:default", (⟨1, 0⟩ : CacheEntry Nat))]
        none 0 .clearCache).2 = .cleared 1 := by
  decide

/-- **C10** (amended). Requests without a userId resolve the owner to the
literal "default": gets and puts address keys whose owner segment is
"default", and a clear without userId removes exactly the entries whose key
contains the substring ":default" — which covers every entry of owner
"default" but may also remove entries of other owners whose later key
segments contain ":default" — rather than failing or clearing all owners
wholesale. -/
theorem c10_default_owner_amended :
    (∀ (V : Type) (cache : List (String × CacheEntry V)) (now : Int),
      cacheFetch cache none now .getCalendars
        = (cache, handleGet cache "calendars:default" DEFAULT_TTL now) ∧
      cacheFetch cache none now .getPreferences
        = (cache, handleGet cache "preferences:default" PREFERENCES_TTL now) ∧
      (∀ v, cacheFetch cache none now (.putCalendars v)
        = (setKey "calendars:default" ⟨v, now⟩ cache, .putOk)) ∧
      (∀ cal, cacheFetch cache none now (.getEvents cal)
        = (cache, handleGet cache ("events:default:" ++ cal) DEFAULT_TTL now))) ∧
    (∀ (V : Type) (cache : List (String × CacheEntry V)) (now : Int),
      (keys cache).Nodup →
      (cacheFetch cache none now .clearCache).1
        = cache.filter (fun p => !(jsIncludes p.1 ":default")) ∧
      (cacheFetch cache none now .clearCache).2
        = .cleared (((keys cache).filter
            (fun key => jsIncludes key ":default")).length)) := by
  constructor
  · exact fun V cache now => ⟨rfl, rfl, fun v => rfl, fun cal => rfl⟩
  · intro V cache now hnd
    exact handleClearCache_spec "default" cache hnd

/-- Witness for C10's amended clear clause at a concrete cache. -/
theorem c10_default_owner_amended_witness :
    (cacheFetch [("calendars:default", (⟨1, 0⟩ : CacheEntry Nat)),
        ("calendars:bob", ⟨2, 0⟩)] none 0 .clearCache).1
      = [("calendars:default", (⟨1, 0⟩ : CacheEntry Nat)),
          ("calendars:bob", ⟨2, 0⟩)].filter (fun p => !(jsIncludes p.1 ":default")) ∧
    (cacheFetch [("calendars:default", (⟨1, 0⟩ : CacheEntry Nat)),
        ("calendars:bob", ⟨2, 0⟩)] none 0 .clearCache).2
      = .cleared (((keys [("calendars:default", (⟨1, 0⟩ : CacheEntry Nat)),
          ("calendars:bob", ⟨2, 0⟩)]).filter
            (fun key => jsIncludes key ":default")).length) :=
  c10_default_owner_amended.2 Nat
    [("calendars:default", ⟨1, 0⟩), ("calendars:bob", ⟨2, 0⟩)] 0 (by decide)

theorem self_mem_setKey {α : Type} (key : String) (v : α) (m : List (String × α)) :
    (key, v) ∈ setKey key v m := by
  induction m with
  | nil => simp [setKey]
  | cons hd tl ih =>
    obtain ⟨k, w⟩ := hd
    by_cases h : k = key <;> simp [setKey, h, ih]

theorem delElem_of_not_mem {x : String} {l : List String} (h : x ∉ l) :
    delElem x l = l := by
  induction l with
  | nil => simp [delElem]
  | cons y tl ih =>
    rw [List.mem_cons, not_or] at h
    rw [delElem, if_neg (fun hy => h.1 hy.symm), ih h.2]

theorem mem_insertBinding (sid x : String) (l : List String) :
    x ∈ insertBinding sid l ↔ x ∈ l ∨ x = sid := by
  rw [insertBinding]
  by_cases h : sid ∈ l
  · rw [if_pos h]
    constructor
    · exact Or.inl
    · rintro (hx | hx)
      · exact hx
      · exact hx ▸ h
  · rw [if_neg h]
    simp [List.mem_append]

theorem nodup_insertBinding (sid : String) {l : List String} (h : l.Nodup) :
    (insertBinding sid l).Nodup := by
  rw [insertBinding]
  by_cases hm : sid ∈ l
  · rwa [if_pos hm]
  · rw [if_neg hm, List.nodup_append]
    exact ⟨h, List.nodup_singleton _,
      fun a ha hb => hm ((List.mem_singleton.mp hb) ▸ ha)⟩

theorem self_mem_insertBinding (sid : String) (l : List String) :
    sid ∈ insertBinding sid l :=
  (mem_insertBinding sid sid l).mpr (Or.inr rfl)

theorem stop_lookup_none {sid : String} {s : TState}
    (h2 : (keys s.handles).Nodup) :
    lookup (stopKeepAlivePinger sid s).handles sid = none := by
  rw [stopKeepAlivePinger, stopKeepAlivePingerE]
  cases hlk : lookup s.handles sid with
  | none => simpa using hlk
  | some tok => simpa using lookup_delKey_self h2

theorem stop_transports_eq (sid : String) (s : TState) :
    (stopKeepAlivePinger sid s).transports = s.transports := by
  rw [stopKeepAlivePinger, stopKeepAlivePingerE]
  cases hlk : lookup s.handles sid <;> simp

theorem cleanup_handles_eq (sid : String) (s : TState) :
    (cleanupSession sid s).handles = (stopKeepAlivePinger sid s).handles := by
  rw [cleanupSession, cleanupSessionE, stopKeepAlivePinger]

theorem cleanup_transports_eq (sid : String) (s : TState) :
    (cleanupSession sid s).transports
      = delElem sid (stopKeepAlivePinger sid s).transports := by
  rw [cleanupSession, cleanupSessionE, stopKeepAlivePinger]

theorem InvT_start {sid : String} {s : TState} (hs : InvT s)
    (hmem : sid ∈ s.transports) : InvT (startKeepAlivePinger sid s) := by
  obtain ⟨h1, h2, h3, h4, h5, h6⟩ := hs
  rw [startKeepAlivePinger]
  cases hlk : lookup s.handles sid with
  | none =>
    have hnosid : ∀ p : String × Nat, p ∈ s.handles → p.1 ≠ sid := by
      intro p hp hpk
      rw [lookup_eq_none_iff] at hlk
      exact hlk (hpk ▸ List.mem_map.mpr ⟨p, hp, rfl⟩)
    refine ⟨h1, nodup_keys_setKey h2, ?_, ?_, ?_, ?_⟩
    · rw [List.nodup_cons]
      refine ⟨fun hmem2 => ?_, h3⟩
      exact absurd (h5 _ ((h4 _).mp hmem2)) (by simp)
    · intro p
      rw [List.mem_cons, mem_setKey_of_nodup h2]
      constructor
      · rintro (h | h)
        · exact Or.inl h
        · exact Or.inr ⟨(h4 p).mp h, hnosid p ((h4 p).mp h)⟩
      · rintro (h | ⟨hp, _⟩)
        · exact Or.inl h
        · exact Or.inr ((h4 p).mpr hp)
    · intro p hp
      rcases (mem_setKey_of_nodup h2 p).mp hp with h | ⟨hp2, _⟩
      · simp [h]
      · exact Nat.lt_succ_of_lt (h5 p hp2)
    · intro p hp
      rcases (mem_setKey_of_nodup h2 p).mp hp with h | ⟨hp2, _⟩
      · rw [h]
        exact hmem
      · exact h6 p hp2
  | some tok =>
    have htok : (sid, tok) ∈ s.handles := mem_of_lookup hlk
    have huniq : ∀ p : String × Nat, p ∈ s.handles → p.1 = sid → p = (sid, tok) := by
      intro p hp hpk
      have := lookup_of_mem_nodup h2 hp
      rw [hpk, hlk] at this
      injection this with hv
      obtain ⟨a, b⟩ := p
      simp only at hpk hv
      rw [hpk, ← hv]
    refine ⟨h1, nodup_keys_setKey h2, ?_, ?_, ?_, ?_⟩
    · rw [List.nodup_cons]
      refine ⟨fun hmem2 => ?_, h3.erase _⟩
      have : (sid, s.nextTok) ∈ s.live := (List.erase_sublist _ _).mem hmem2
      exact absurd (h5 _ ((h4 _).mp this)) (by simp)
    · intro p
      rw [List.mem_cons, mem_setKey_of_nodup h2, h3.mem_erase_iff]
      constructor
      · rintro (h | ⟨hne, hmem2⟩)
        · exact Or.inl h
        · refine Or.inr ⟨(h4 p).mp hmem2, fun hpk => ?_⟩
          exact hne (huniq p ((h4 p).mp hmem2) hpk)
      · rintro (h | ⟨hp2, hpk⟩)
        · exact Or.inl h
        · refine Or.inr ⟨fun hpe => hpk (by rw [hpe]), (h4 p).mpr hp2⟩
    · intro p hp
      rcases (mem_setKey_of_nodup h2 p).mp hp with h | ⟨hp2, _⟩
      · simp [h]
      · exact Nat.lt_succ_of_lt (h5 p hp2)
    · intro p hp
      rcases (mem_setKey_of_nodup h2 p).mp hp with h | ⟨hp2, _⟩
      · rw [h]
        exact hmem
      · exact h6 p hp2

theorem InvT_stop {sid : String} {s : TState} (hs : InvT s) :
    InvT (stopKeepAlivePinger sid s) := by
  obtain ⟨h1, h2, h3, h4, h5, h6⟩ := hs
  rw [stopKeepAlivePinger, stopKeepAlivePingerE]
  cases hlk : lookup s.handles sid with
  | none => exact ⟨h1, h2, h3, h4, h5, h6⟩
  | some tok =>
    have huniq : ∀ p : String × Nat, p ∈ s.handles → p.1 = sid → p = (sid, tok) := by
      intro p hp hpk
      have := lookup_of_mem_nodup h2 hp
      rw [hpk, hlk] at this
      injection this with hv
      obtain ⟨a, b⟩ := p
      simp only at hpk hv
      rw [hpk, ← hv]
    refine ⟨h1, nodup_keys_delKey h2, h3.erase _, ?_, ?_, ?_⟩
    · intro p
      rw [h3.mem_erase_iff, mem_delKey_of_nodup h2]
      constructor
      · rintro ⟨hne, hmem2⟩
        exact ⟨(h4 p).mp hmem2, fun hpk => hne (huniq p ((h4 p).mp hmem2) hpk)⟩
      · rintro ⟨hp2, hpk⟩
        exact ⟨fun hpe => hpk (by rw [hpe]), (h4 p).mpr hp2⟩
    · intro p hp
      exact h5 p ((mem_delKey_of_nodup h2 p).mp hp).1
    · intro p hp
      exact h6 p ((mem_delKey_of_nodup h2 p).mp hp).1

theorem InvT_cleanup {sid : String} {s : TState} (hs : InvT s) :
    InvT (cleanupSession sid s) := by
  have hstop : InvT (stopKeepAlivePinger sid s) := InvT_stop hs
  obtain ⟨a1, a2, a3, a4, a5, a6⟩ := hstop
  have hnone : lookup (stopKeepAlivePinger sid s).handles sid = none :=
    stop_lookup_none hs.2.1
  refine ⟨?_, ?_, ?_, ?_, ?_, ?_⟩
  · rw [cleanup_transports_eq]
    exact nodup_delElem a1
  · rw [cleanup_handles_eq]
    exact a2
  · show ((cleanupSessionE sid s).1).live.Nodup
    rw [cleanupSessionE]
    exact a3
  · show ∀ p : String × Nat, p ∈ ((cleanupSessionE sid s).1).live ↔ _ ∈ ((cleanupSessionE sid s).1).handles
    rw [cleanupSessionE]
    exact a4
  · show ∀ p ∈ ((cleanupSessionE sid s).1).handles, p.2 < ((cleanupSessionE sid s).1).nextTok
    rw [cleanupSessionE]
    exact a5
  · intro p hp
    rw [cleanup_handles_eq] at hp
    rw [cleanup_transports_eq, mem_delElem_of_nodup a1]
    refine ⟨a6 p hp, fun hpk => ?_⟩
    have := lookup_of_mem_nodup a2 hp
    rw [hpk, hnone] at this
    exact Option.noConfusion this

theorem start_handles_eq (sid : String) (s : TState) :
    (startKeepAlivePinger sid s).handles = setKey sid s.nextTok s.handles := by
  rw [startKeepAlivePinger]
  cases lookup s.handles sid <;> simp

theorem start_transports_eq (sid : String) (s : TState) :
    (startKeepAlivePinger sid s).transports = s.transports := by
  rw [startKeepAlivePinger]
  cases lookup s.handles sid <;> simp

theorem start_nextTok_eq (sid : String) (s : TState) :
    (startKeepAlivePinger sid s).nextTok = s.nextTok + 1 := by
  rw [startKeepAlivePinger]
  cases lookup s.handles sid <;> simp

theorem start_live_eq (sid : String) (s : TState) :
    (startKeepAlivePinger sid s).live
      = (sid, s.nextTok) ::
        (match lookup s.handles sid with
         | some tok => s.live.erase (sid, tok)
         | none => s.live) := by
  rw [startKeepAlivePinger]
  cases lookup s.handles sid <;> simp

theorem stop_nextTok_eq (sid : String) (s : TState) :
    (stopKeepAlivePinger sid s).nextTok = s.nextTok := by
  rw [stopKeepAlivePinger, stopKeepAlivePingerE]
  cases lookup s.handles sid <;> simp

theorem stop_pings_eq (sid : String) (s : TState) :
    (stopKeepAlivePinger sid s).pings = s.pings := by
  rw [stopKeepAlivePinger, stopKeepAlivePingerE]
  cases lookup s.handles sid <;> simp

theorem cleanup_nextTok_eq (sid : String) (s : TState) :
    (cleanupSession sid s).nextTok = s.nextTok :=
  stop_nextTok_eq sid s

theorem mem_live_start {sid : String} {s : TState} {p : String × Nat}
    (hp : p ∈ (startKeepAlivePinger sid s).live) :
    p = (sid, s.nextTok) ∨ p ∈ s.live := by
  rw [start_live_eq] at hp
  rcases List.mem_cons.mp hp with h | h
  · exact Or.inl h
  · right
    revert h
    cases lookup s.handles sid with
    | none => exact id
    | some tok => exact fun h => (List.erase_sublist _ _).subset h

theorem mem_live_stop {sid : String} {s : TState} {p : String × Nat}
    (hp : p ∈ (stopKeepAlivePinger sid s).live) : p ∈ s.live := by
  rw [stopKeepAlivePinger, stopKeepAlivePingerE] at hp
  revert hp
  cases lookup s.handles sid with
  | none => exact id
  | some tok => exact fun hp => (List.erase_sublist _ _).subset hp

theorem mem_live_cleanup {sid : String} {s : TState} {p : String × Nat}
    (hp : p ∈ (cleanupSession sid s).live) : p ∈ s.live :=
  @mem_live_stop sid s p hp

theorem InvT_step {s : TState} (hs : InvT s) (e : TEvent) : InvT (stepT s e) := by
  cases e with
  | estStream sid =>
    rw [stepT]
    apply InvT_start
    · obtain ⟨h1, h2, h3, h4, h5, h6⟩ := hs
      exact ⟨nodup_insertBinding sid h1, h2, h3, h4, h5,
        fun p hp => (mem_insertBinding sid p.1 s.transports).mpr (Or.inl (h6 p hp))⟩
    · exact self_mem_insertBinding sid s.transports
  | postMsg => exact hs
  | deleteReq sid =>
    rw [stepT]
    split
    · exact InvT_cleanup hs
    · exact hs
  | closeConn sid => exact InvT_cleanup hs
  | tick sid tok =>
    rw [stepT]
    split
    · split
      · obtain ⟨h1, h2, h3, h4, h5, h6⟩ := hs
        exact ⟨h1, h2, h3, h4, h5, h6⟩
      · exact InvT_stop hs
    · exact hs
  | tickWriteFail sid tok =>
    rw [stepT]
    split
    · exact InvT_stop hs
    · exact hs

theorem InvT_initT : InvT initT := by
  refine ⟨?_, ?_, ?_, ?_, ?_, ?_⟩ <;> simp [initT]

theorem InvT_foldl (evs : List TEvent) :
    ∀ s : TState, InvT s → InvT (evs.foldl stepT s) := by
  induction evs with
  | nil => exact fun s hs => hs
  | cons e rest ih => exact fun s hs => ih _ (InvT_step hs e)

theorem InvT_runT (evs : List TEvent) : InvT (runT evs) :=
  InvT_foldl evs initT InvT_initT

theorem ParityT_step {s : TState} (hi : InvT s) (hp : ParityT s) {e : TEvent}
    (hnf : e.isWriteFail = false) : ParityT (stepT s e) := by
  obtain ⟨h1, h2, h3, h4, h5, h6⟩ := hi
  cases e with
  | estStream sid =>
    intro x hx
    rw [stepT, start_transports_eq] at hx
    rw [stepT, start_handles_eq]
    rcases (mem_insertBinding sid x s.transports).mp hx with h | h
    · by_cases hxs : x = sid
      · subst hxs
        exact ⟨s.nextTok, self_mem_setKey x s.nextTok s.handles⟩
      · obtain ⟨tok, htok⟩ := hp x h
        exact ⟨tok, (mem_setKey_of_nodup h2 (x, tok)).mpr (Or.inr ⟨htok, hxs⟩)⟩
    · subst h
      exact ⟨s.nextTok, self_mem_setKey x s.nextTok s.handles⟩
  | postMsg => exact hp
  | deleteReq sid =>
    rw [stepT]
    split
    · intro x hx
      rw [cleanup_transports_eq, stop_transports_eq, mem_delElem_of_nodup h1] at hx
      obtain ⟨hxt, hxs⟩ := hx
      obtain ⟨tok, htok⟩ := hp x hxt
      rw [cleanup_handles_eq, stopKeepAlivePinger, stopKeepAlivePingerE]
      cases hlk : lookup s.handles sid with
      | none => exact ⟨tok, htok⟩
      | some tok0 => exact ⟨tok, (mem_delKey_of_nodup h2 (x, tok)).mpr ⟨htok, hxs⟩⟩
    · exact hp
  | closeConn sid =>
    intro x hx
    rw [stepT, cleanup_transports_eq, stop_transports_eq,
      mem_delElem_of_nodup h1] at hx
    obtain ⟨hxt, hxs⟩ := hx
    obtain ⟨tok, htok⟩ := hp x hxt
    rw [stepT, cleanup_handles_eq, stopKeepAlivePinger, stopKeepAlivePingerE]
    cases hlk : lookup s.handles sid with
    | none => exact ⟨tok, htok⟩
    | some tok0 => exact ⟨tok, (mem_delKey_of_nodup h2 (x, tok)).mpr ⟨htok, hxs⟩⟩
  | tick sid tok =>
    rw [stepT]
    split
    · split
      · exact hp
      · rename_i hlive hnot
        exact absurd (h6 (sid, tok) ((h4 (sid, tok)).mp hlive)) hnot
    · exact hp
  | tickWriteFail sid tok => simp [TEvent.isWriteFail] at hnf

theorem ParityT_foldl (evs : List TEvent) (hnf : noWriteFail evs = true) :
    ∀ s : TState, InvT s → ParityT s → ParityT (evs.foldl stepT s) := by
  induction evs with
  | nil => exact fun s _ hp => hp
  | cons e rest ih =>
    rw [noWriteFail, List.all_cons, Bool.and_eq_true] at hnf
    intro s hi hp
    exact ih (by rw [noWriteFail]; exact hnf.2) _ (InvT_step hi e)
      (ParityT_step hi hp (by simpa using hnf.1))

theorem length_eq_of_nodup_mem_iff {α : Type} [DecidableEq α] {l1 l2 : List α}
    (h1 : l1.Nodup) (h2 : l2.Nodup) (h : ∀ x, x ∈ l1 ↔ x ∈ l2) :
    l1.length = l2.length := by
  rw [← List.toFinset_card_of_nodup h1, ← List.toFinset_card_of_nodup h2]
  congr 1
  apply Finset.ext
  intro a
  rw [List.mem_toFinset, List.mem_toFinset]
  exact h a

theorem keys_live_nodup {s : TState} (hi : InvT s) : (keys s.live).Nodup := by
  obtain ⟨h1, h2, h3, h4, h5, h6⟩ := hi
  apply List.Nodup.map_on ?_ h3
  intro p hp q hq hfst
  have hp2 := lookup_of_mem_nodup h2 ((h4 p).mp hp)
  have hq2 := lookup_of_mem_nodup h2 ((h4 q).mp hq)
  rw [hfst, hq2] at hp2
  injection hp2 with hv
  obtain ⟨a, b⟩ := p
  obtain ⟨c, d⟩ := q
  simp only at hfst hv
  rw [hfst, hv]

theorem timer_binding_counts {s : TState} (hi : InvT s) (hp : ParityT s) :
    s.live.length = s.transports.length := by
  obtain ⟨h1, h2, h3, h4, h5, h6⟩ := hi
  have hkeys : ∀ x, x ∈ keys s.handles ↔ x ∈ s.transports := by
    intro x
    constructor
    · intro hx
      obtain ⟨p, hpm, hpf⟩ := List.mem_map.mp hx
      exact hpf ▸ h6 p hpm
    · intro hx
      obtain ⟨tok, htok⟩ := hp x hx
      exact List.mem_map.mpr ⟨(x, tok), htok, rfl⟩
  have e1 : s.live.length = s.handles.length :=
    length_eq_of_nodup_mem_iff h3 (List.Nodup.of_map _ h2) h4
  have e2 : s.handles.length = (keys s.handles).length := (List.length_map _ _).symm
  have e3 : (keys s.handles).length = s.transports.length :=
    length_eq_of_nodup_mem_iff h2 h1 hkeys
  omega

theorem live_nil_of_transports_nil {s : TState} (hi : InvT s)
    (h : s.transports = []) : s.live = [] := by
  obtain ⟨h1, h2, h3, h4, h5, h6⟩ := hi
  rw [List.eq_nil_iff_forall_not_mem]
  intro p hp
  have hmem := h6 p ((h4 p).mp hp)
  rw [h] at hmem
  simp at hmem

theorem stepT_nextTok_mono (s : TState) (e : TEvent) :
    s.nextTok ≤ (stepT s e).nextTok := by
  cases e with
  | estStream sid =>
    rw [stepT, start_nextTok_eq]
    exact Nat.le_succ _
  | postMsg => exact Nat.le_refl _
  | deleteReq sid =>
    rw [stepT]
    split
    · rw [cleanup_nextTok_eq]
    · exact Nat.le_refl _
  | closeConn sid =>
    rw [stepT, cleanup_nextTok_eq]
  | tick sid tok =>
    rw [stepT]
    split
    · split
      · exact Nat.le_refl _
      · rw [stop_nextTok_eq]
    · exact Nat.le_refl _
  | tickWriteFail sid tok =>
    rw [stepT]
    split
    · rw [stop_nextTok_eq]
    · exact Nat.le_refl _

theorem stepT_dead_tok {s : TState} {sid : String} {tok : Nat}
    (h1 : tok < s.nextTok) (h2 : (sid, tok) ∉ s.live) (e : TEvent) :
    tok < (stepT s e).nextTok ∧ (sid, tok) ∉ (stepT s e).live := by
  refine ⟨Nat.lt_of_lt_of_le h1 (stepT_nextTok_mono s e), ?_⟩
  intro hmem
  cases e with
  | estStream sid2 =>
    rw [stepT] at hmem
    rcases mem_live_start hmem with h | h
    · have hb : tok = s.nextTok := congrArg Prod.snd h
      omega
    · exact h2 h
  | postMsg => exact h2 hmem
  | deleteReq sid2 =>
    rw [stepT] at hmem
    split at hmem
    · exact h2 (mem_live_cleanup hmem)
    · exact h2 hmem
  | closeConn sid2 =>
    rw [stepT] at hmem
    exact h2 (mem_live_cleanup hmem)
  | tick sid2 tok2 =>
    rw [stepT] at hmem
    split at hmem
    · split at hmem
      · exact h2 hmem
      · exact h2 (mem_live_stop hmem)
    · exact h2 hmem
  | tickWriteFail sid2 tok2 =>
    rw [stepT] at hmem
    split at hmem
    · exact h2 (mem_live_stop hmem)
    · exact h2 hmem

theorem foldl_dead_tok (evs : List TEvent) :
    ∀ (s : TState) (sid : String) (tok : Nat),
      tok < s.nextTok → (sid, tok) ∉ s.live →
      (sid, tok) ∉ (evs.foldl stepT s).live := by
  induction evs with
  | nil => exact fun s sid tok _ h2 => h2
  | cons e rest ih =>
    intro s sid tok h1 h2
    obtain ⟨h1', h2'⟩ := stepT_dead_tok h1 h2 e
    exact ih _ sid tok h1' h2'

/-- **C2** counterexample. After establishing a stream for "s" and one
keep-alive tick whose write to the response stream throws, the binding for
"s" is still registered but its timer has been cancelled: a state reachable
by an interleaving of the claim's events in which the count of live timers
(0) differs from the count of live bindings (1), refuting the claimed iff
and count equality. -/
theorem c2_timer_binding_counterexample :
    (runT [TEvent.estStream "s", TEvent.tickWriteFail "s" 0]).transports = ["s"] ∧
    (runT [TEvent.estStream "s", TEvent.tickWriteFail "s" 0]).live = [] ∧
    (runT [TEvent.estStream "s", TEvent.tickWriteFail "s" 0]).live.length
      ≠ (runT [TEvent.estStream "s", TEvent.tickWriteFail "s" 0]).transports.length := by
  decide

/-- **C2** (amended). In every reachable state a keep-alive timer exists for
a session id only if a transport binding for that id exists in the same
process (no orphaned timers); once every binding has been torn down the live
timer set is empty, whatever the trace. Along every interleaving with no
failed heartbeat write the converse holds as well — a binding exists iff a
timer handle for it exists — and the count of live timers equals the count
of live bindings. A failed heartbeat write cancels the session's timer but
leaves its binding registered until its DELETE/close event, so there the
iff fails transiently. -/
theorem c2_timer_binding_amended :
    (∀ (evs : List TEvent) (p : String × Nat),
      p ∈ (runT evs).live → p.1 ∈ (runT evs).transports) ∧
    (∀ evs : List TEvent, (runT evs).transports = [] → (runT evs).live = []) ∧
    (∀ evs : List TEvent, noWriteFail evs = true →
      (∀ sid, (∃ tok, (sid, tok) ∈ (runT evs).handles) ↔ sid ∈ (runT evs).transports) ∧
      (runT evs).live.length = (runT evs).transports.length) := by
  refine ⟨?_, ?_, ?_⟩
  · intro evs p hp
    obtain ⟨h1, h2, h3, h4, h5, h6⟩ := InvT_runT evs
    exact h6 p ((h4 p).mp hp)
  · intro evs h
    exact live_nil_of_transports_nil (InvT_runT evs) h
  · intro evs hnf
    have hi := InvT_runT evs
    have hpar := ParityT_foldl evs hnf initT InvT_initT
      (by intro sid h; simp [initT] at h)
    refine ⟨?_, timer_binding_counts hi hpar⟩
    intro sid
    obtain ⟨h1, h2, h3, h4, h5, h6⟩ := hi
    constructor
    · rintro ⟨tok, htok⟩
      exact h6 (sid, tok) htok
    · exact hpar sid

/-- Witness for C2's amended statement on the error-free trace
establish("a") then DELETE("a"). -/
theorem c2_timer_binding_amended_witness :
    ((∃ tok, ("a", tok) ∈ (runT [TEvent.estStream "a", TEvent.deleteReq "a"]).handles)
        ↔ "a" ∈ (runT [TEvent.estStream "a", TEvent.deleteReq "a"]).transports) ∧
    (runT [TEvent.estStream "a", TEvent.deleteReq "a"]).live.length
        = (runT [TEvent.estStream "a", TEvent.deleteReq "a"]).transports.length ∧
    (runT [TEvent.estStream "a", TEvent.deleteReq "a"]).live = [] :=
  ⟨(c2_timer_binding_amended.2.2 [TEvent.estStream "a", TEvent.deleteReq "a"]
      (by decide)).1 "a",
   (c2_timer_binding_amended.2.2 [TEvent.estStream "a", TEvent.deleteReq "a"]
      (by decide)).2,
   c2_timer_binding_amended.2.1 [TEvent.estStream "a", TEvent.deleteReq "a"]
      (by decide)⟩

/-- **C7** (confirmed). In no reachable state are two interval timers live
for the same session id (the scheduler cancels the registered interval
before scheduling a new one); and a tick that finds no transport binding for
its session id — its interval being the one registered in the timer map —
writes no heartbeat and cancels its own interval, which is then never live
again along any continuation: the scheduler cannot fire after teardown. -/
theorem c7_timer_uniqueness_and_self_stop :
    (∀ evs : List TEvent, (keys (runT evs).live).Nodup) ∧
    (∀ (s : TState) (sid : String) (tok : Nat),
      s.live.Nodup → (sid, tok) ∈ s.live → sid ∉ s.transports →
      lookup s.handles sid = some tok → tok < s.nextTok →
      (stepT s (.tick sid tok)).pings = s.pings ∧
      (sid, tok) ∉ (stepT s (.tick sid tok)).live ∧
      (∀ evs2 : List TEvent,
        (sid, tok) ∉ (evs2.foldl stepT (stepT s (.tick sid tok))).live)) := by
  constructor
  · intro evs
    exact keys_live_nodup (InvT_runT evs)
  · intro s sid tok hnd hlive hnb hlk htok
    have hstep : stepT s (.tick sid tok) = stopKeepAlivePinger sid s := by
      rw [stepT, if_pos hlive, if_neg hnb]
    have hstop : stopKeepAlivePinger sid s
        = { s with live := s.live.erase (sid, tok), handles := delKey sid s.handles } := by
      rw [stopKeepAlivePinger, stopKeepAlivePingerE, hlk]
    have hdead : (sid, tok) ∉ (stepT s (.tick sid tok)).live := by
      rw [hstep, hstop]
      intro hmem
      exact absurd ((hnd.mem_erase_iff.mp hmem).1 rfl) (by simp)
    refine ⟨by rw [hstep, hstop], hdead, ?_⟩
    intro evs2
    apply foldl_dead_tok evs2 _ sid tok _ hdead
    rw [hstep, stop_nextTok_eq]
    exact htok

/-- Witness for C7's tick clause at a concrete state in which the interval
for "s" is live and registered but the binding is gone. -/
theorem c7_timer_uniqueness_and_self_stop_witness :
    (stepT ⟨[], [("s", 0)], [("s", 0)], 1, []⟩ (.tick "s" 0)).pings = [] ∧
    ("s", 0) ∉ (stepT ⟨[], [("s", 0)], [("s", 0)], 1, []⟩ (.tick "s" 0)).live ∧
    ("s", 0) ∉ ([TEvent.estStream "s"].foldl stepT
        (stepT ⟨[], [("s", 0)], [("s", 0)], 1, []⟩ (.tick "s" 0))).live :=
  ⟨(c7_timer_uniqueness_and_self_stop.2 ⟨[], [("s", 0)], [("s", 0)], 1, []⟩ "s" 0
      (by decide) (by decide) (by decide) (by decide) (by decide)).1,
   (c7_timer_uniqueness_and_self_stop.2 ⟨[], [("s", 0)], [("s", 0)], 1, []⟩ "s" 0
      (by decide) (by decide) (by decide) (by decide) (by decide)).2.1,
   (c7_timer_uniqueness_and_self_stop.2 ⟨[], [("s", 0)], [("s", 0)], 1, []⟩ "s" 0
      (by decide) (by decide) (by decide) (by decide) (by decide)).2.2
     [TEvent.estStream "s"]⟩

/-- **C8** (confirmed). The stream-teardown path is idempotent on every
well-formed registry/timer state: a second `cleanupSession` for the same id
returns the once-cleaned state unchanged and performs no side effect at all —
no second timer cancellation, no second registry removal, and no error (the
operation is total). -/
theorem c8_cleanup_idempotent (s : TState) (sid : String) (h : WFT s) :
    cleanupSessionE sid (cleanupSession sid s) = (cleanupSession sid s, []) ∧
    cleanupSession sid (cleanupSession sid s) = cleanupSession sid s := by
  have hnone : lookup (cleanupSession sid s).handles sid = none := by
    rw [cleanup_handles_eq]
    exact stop_lookup_none h.2
  have hnt : sid ∉ (cleanupSession sid s).transports := by
    rw [cleanup_transports_eq]
    intro hmem
    rw [mem_delElem_of_nodup (by rw [stop_transports_eq]; exact h.1)] at hmem
    exact absurd rfl hmem.2
  have hmain : cleanupSessionE sid (cleanupSession sid s) = (cleanupSession sid s, []) := by
    simp only [cleanupSessionE, stopKeepAlivePingerE, hnone, if_neg hnt,
      delElem_of_not_mem hnt, List.nil_append]
  exact ⟨hmain, by rw [cleanupSession, hmain]⟩

/-- Witness for C8 at a concrete state holding one binding and one timer. -/
theorem c8_cleanup_idempotent_witness :
    cleanupSessionE "a" (cleanupSession "a" ⟨["a"], [("a", 0)], [("a", 0)], 1, []⟩)
      = (cleanupSession "a" ⟨["a"], [("a", 0)], [("a", 0)], 1, []⟩, []) :=
  (c8_cleanup_idempotent ⟨["a"], [("a", 0)], [("a", 0)], 1, []⟩ "a"
    ⟨by decide, by decide⟩).1

/-- **C6** counterexample. A POST carrying the header value "" (present but
empty) names no existing binding, so by the claim the response header should
echo the supplied id ""; the code's falsy-id tests (`sessionId && ...`,
`sessionId || uuidv4()`) treat "" like an absent header and return the
freshly generated id instead. -/
theorem c6_post_init_counterexample :
    (mcpPost [] (some "") "11111111-2222-3333-4444-555555555555").sessionHeader
      = some "11111111-2222-3333-4444-555555555555" ∧
    (mcpPost [] (some "") "11111111-2222-3333-4444-555555555555").sessionHeader
      ≠ some "" := by
  decide

/-- **C6** (amended). For every POST whose session id header is absent,
empty, or names no existing transport binding: the handler responds 202,
sets the Mcp-Session-Id response header — to the freshly generated id when
the header is absent or empty, otherwise to the supplied id — and leaves the
transport registry unchanged; moreover no POST whatsoever can reach the 404
session-not-found branch. -/
theorem c6_post_init_amended :
    (∀ (transports : List String) (hdr : Option String) (freshId : String),
      ¬(jsTruthy hdr = true ∧ transports.contains (hdr.getD "") = true) →
      (mcpPost transports hdr freshId).status = some 202 ∧
      (mcpPost transports hdr freshId).branch = .initialized ∧
      (mcpPost transports hdr freshId).transports = transports ∧
      (mcpPost transports hdr freshId).sessionHeader
        = some (if jsTruthy hdr then hdr.getD "" else freshId)) ∧
    (∀ (transports : List String) (hdr : Option String) (freshId : String),
      (mcpPost transports hdr freshId).branch ≠ McpBranch.sessionNotFound) := by
  constructor
  · intro tr hdr freshId h
    have hb : (jsTruthy hdr && tr.contains (hdr.getD "")) = false := by
      cases ht : jsTruthy hdr <;> cases hc : tr.contains (hdr.getD "") <;> simp_all
    have hb2 : (!(jsTruthy hdr) || !(tr.contains (hdr.getD ""))) = true := by
      cases ht : jsTruthy hdr <;> cases hc : tr.contains (hdr.getD "") <;> simp_all
    rw [mcpPost, hb, hb2]
    exact ⟨rfl, rfl, rfl, rfl⟩
  · intro tr hdr freshId
    rw [mcpPost]
    split
    · simp
    · split
      · simp
      · rename_i hcond1 hcond2
        cases ht : jsTruthy hdr <;> cases hc : tr.contains (hdr.getD "") <;>
          simp_all

/-- Witness for C6's amended statement: a POST with no header at all against
a registry holding the binding "x". -/
theorem c6_post_init_amended_witness :
    ((mcpPost ["x"] none "f").status = some 202 ∧
     (mcpPost ["x"] none "f").branch = .initialized ∧
     (mcpPost ["x"] none "f").transports = ["x"] ∧
     (mcpPost ["x"] none "f").sessionHeader
       = some (if jsTruthy none then (none : Option String).getD "" else "f")) ∧
    (mcpPost ["x"] (some "x") "f").branch ≠ McpBranch.sessionNotFound :=
  ⟨c6_post_init_amended.1 ["x"] none "f" (by decide),
   c6_post_init_amended.2 ["x"] (some "x") "f"⟩

end CalMcp
